import Mathlib

/-!
Verification of the `subnetwork` Rust crate (file `src/lib.rs`): IPv4/IPv6
CIDR pools, cross-subnet ranges, mask algebra, multicast derivation and the
common-prefix computation.

Shallow-embedding conventions used throughout this file:

* Machine integers (`u8`, `u32`, `u128`, `usize`) are modelled as `Nat`
  with an explicit `% 2^w` wherever the Rust release-profile (wrapping)
  semantics can differ from unbounded arithmetic.  `usize` is modelled as
  64 bits wide (the crate targets ordinary 64-bit hosts).
* Rust operations that are overflow-checked under debug assertions are in
  addition modelled by `checkedSub` / `checkedPow` variants where a claim
  is about the panicking behaviour; `none` models the panic.
* Fallible constructors returning `Result<_, InvalidInputError>` are
  modelled with `Option` (`none` models `Err`).  For `Ipv4Pool::from`,
  whose body can also panic through `.unwrap()`, the richer `RunResult`
  type distinguishes `ok` / `err` / `abort` (panic).
* Rust `&str` values are modelled as `List Char`.
-/

namespace Subnetwork

/-- `u32` modulus. -/
def U32_MOD : Nat := 2 ^ 32

/-- `u128` modulus. -/
def U128_MOD : Nat := 2 ^ 128

/-- `usize` modulus (64-bit host). -/
def USIZE_MOD : Nat := 2 ^ 64

/-- Source constant `INIT_NEXT_VALUE: u8 = 1` (initial iterator cursor). -/
def INIT_NEXT_VALUE : Nat := 1

/-- Source constant `IPV4_LEN: u8 = 32`. -/
def IPV4_LEN : Nat := 32

/-- Source constant `IPV6_LEN: u8 = 128`. -/
def IPV6_LEN : Nat := 128

/-- The repeated-shift loop `for _ in 0..k { m <<= 1 }` on a `w`-bit
unsigned integer with modulus `M = 2^w`; each `<<= 1` drops the bit
shifted past the top, i.e. multiplies by two modulo `M`. -/
def shlLoop (M : Nat) : Nat → Nat → Nat
  | m, 0 => m
  | m, k + 1 => shlLoop M ((m * 2) % M) k

/-- Struct `Ipv4Pool { prefix: u32, mask: u32, next: u32, stop: u32 }`.
The source field `prefix` is named `pfx` here. -/
structure Ipv4Pool where
  pfx : Nat
  mask : Nat
  next : Nat
  stop : Nat
deriving DecidableEq

/-- Struct `Ipv6Pool { prefix: u128, mask: u128, next: u128, stop: u128 }`.
The source field `prefix` is named `pfx` here. -/
structure Ipv6Pool where
  pfx : Nat
  mask : Nat
  next : Nat
  stop : Nat
deriving DecidableEq

/-- Struct `CrossIpv4Pool { start: u32, end: u32, next: u32 }`.
The source field `end` is named `end_` (`end` is reserved in Lean). -/
structure CrossIpv4Pool where
  start : Nat
  end_ : Nat
  next : Nat
deriving DecidableEq

/-- Struct `CrossIpv6Pool { start: u128, end: u128, next: u128 }`. -/
structure CrossIpv6Pool where
  start : Nat
  end_ : Nat
  next : Nat
deriving DecidableEq

/-- `Ipv4Pool::new(address, prefix_length)`: rejects `prefix_length > 32`,
otherwise shifts a full mask left `32 - prefix_length` times, computes
`stop = u32::pow(2, 32 - prefix_length)` (which wraps to `0` when
`prefix_length = 0`, release profile) and masks the address. -/
def ipv4PoolNew (address plen : Nat) : Option Ipv4Pool :=
  if 32 < plen then none
  else
    let mask := shlLoop U32_MOD (U32_MOD - 1) (IPV4_LEN - plen)
    let stop := (2 ^ (IPV4_LEN - plen)) % U32_MOD
    some ⟨address &&& mask, mask, INIT_NEXT_VALUE, stop⟩

/-- `Ipv6Pool::new(address, prefix_length)`: as `ipv4PoolNew` at width 128. -/
def ipv6PoolNew (address plen : Nat) : Option Ipv6Pool :=
  if 128 < plen then none
  else
    let mask := shlLoop U128_MOD (U128_MOD - 1) (IPV6_LEN - plen)
    let stop := (2 ^ (IPV6_LEN - plen)) % U128_MOD
    some ⟨address &&& mask, mask, INIT_NEXT_VALUE, stop⟩

/-- `<Ipv4Pool as Iterator>::next`: while `next < stop`, yield
`prefix + next` and increment the cursor (u32 arithmetic). -/
def ipv4PoolNext (p : Ipv4Pool) : Option (Nat × Ipv4Pool) :=
  if p.next < p.stop then
    some ((p.pfx + p.next) % U32_MOD, ⟨p.pfx, p.mask, (p.next + 1) % U32_MOD, p.stop⟩)
  else none

/-- `<Ipv6Pool as Iterator>::next`. -/
def ipv6PoolNext (p : Ipv6Pool) : Option (Nat × Ipv6Pool) :=
  if p.next < p.stop then
    some ((p.pfx + p.next) % U128_MOD, ⟨p.pfx, p.mask, (p.next + 1) % U128_MOD, p.stop⟩)
  else none

/-- The list of addresses produced by repeatedly calling
`Ipv4Pool::next` at most `fuel` times. -/
def ipv4PoolTake : Nat → Ipv4Pool → List Nat
  | 0, _ => []
  | fuel + 1, p =>
    match ipv4PoolNext p with
    | none => []
    | some (a, q) => a :: ipv4PoolTake fuel q

/-- The pool state after `n` calls to `Ipv4Pool::next` (an exhausted
pool is left unchanged). -/
def ipv4PoolSteps : Nat → Ipv4Pool → Ipv4Pool
  | 0, p => p
  | n + 1, p =>
    match ipv4PoolNext p with
    | none => p
    | some (_, q) => ipv4PoolSteps n q

/-- The pool state after `n` calls to `Ipv6Pool::next`. -/
def ipv6PoolSteps : Nat → Ipv6Pool → Ipv6Pool
  | 0, p => p
  | n + 1, p =>
    match ipv6PoolNext p with
    | none => p
    | some (_, q) => ipv6PoolSteps n q

/-- `Ipv4Pool::size`: `!mask + 1` in u32 (wraps to `0` when `mask = 0`),
then cast to `usize` (widening, no truncation for u32). -/
def ipv4PoolSize (p : Ipv4Pool) : Nat :=
  ((U32_MOD - 1 - p.mask) + 1) % U32_MOD

/-- `Ipv4Pool::len`: `!mask - 1` in u32 (wraps to `u32::MAX` when
`!mask = 0`, release profile), then cast to `usize`. -/
def ipv4PoolLen (p : Ipv4Pool) : Nat :=
  (U32_MOD + (U32_MOD - 1 - p.mask) - 1) % U32_MOD

/-- `Ipv6Pool::size`: `!mask + 1` in u128, then `as usize`, which
truncates the u128 value to 64 bits. -/
def ipv6PoolSize (p : Ipv6Pool) : Nat :=
  (((U128_MOD - 1 - p.mask) + 1) % U128_MOD) % USIZE_MOD

/-- `Ipv6Pool::len`: `!mask - 1` in u128 (wrapping), then `as usize`. -/
def ipv6PoolLen (p : Ipv6Pool) : Nat :=
  ((U128_MOD + (U128_MOD - 1 - p.mask) - 1) % U128_MOD) % USIZE_MOD

/-- `CrossIpv4Pool::new(start, end)`: succeeds iff `start <= end`, with
`start`, `end` and the cursor `next` all taken from the arguments. -/
def crossIpv4PoolNew (start end_ : Nat) : Option CrossIpv4Pool :=
  if start ≤ end_ then some ⟨start, end_, start⟩ else none

/-- `CrossIpv6Pool::new(start, end)`. -/
def crossIpv6PoolNew (start end_ : Nat) : Option CrossIpv6Pool :=
  if start ≤ end_ then some ⟨start, end_, start⟩ else none

/-- `<CrossIpv4Pool as Iterator>::next`: while `next <= end`, yield
`next` and increment the cursor (u32, wrapping in release profile). -/
def crossIpv4Next (p : CrossIpv4Pool) : Option (Nat × CrossIpv4Pool) :=
  if p.next ≤ p.end_ then
    some (p.next, ⟨p.start, p.end_, (p.next + 1) % U32_MOD⟩)
  else none

/-- `<CrossIpv6Pool as Iterator>::next`. -/
def crossIpv6Next (p : CrossIpv6Pool) : Option (Nat × CrossIpv6Pool) :=
  if p.next ≤ p.end_ then
    some (p.next, ⟨p.start, p.end_, (p.next + 1) % U128_MOD⟩)
  else none

/-- The range state after `n` calls to `CrossIpv4Pool::next`. -/
def crossIpv4Steps : Nat → CrossIpv4Pool → CrossIpv4Pool
  | 0, p => p
  | n + 1, p =>
    match crossIpv4Next p with
    | none => p
    | some (_, q) => crossIpv4Steps n q

/-- The range state after `n` calls to `CrossIpv6Pool::next`. -/
def crossIpv6Steps : Nat → CrossIpv6Pool → CrossIpv6Pool
  | 0, p => p
  | n + 1, p =>
    match crossIpv6Next p with
    | none => p
    | some (_, q) => crossIpv6Steps n q

/-- `Ipv6Addr::new(s0, ..., s7)`: packs eight 16-bit segments, most
significant first, into the 128-bit address value. -/
def segsToU128 (s0 s1 s2 s3 s4 s5 s6 s7 : Nat) : Nat :=
  s0 * 2 ^ 112 + s1 * 2 ^ 96 + s2 * 2 ^ 80 + s3 * 2 ^ 64 +
  s4 * 2 ^ 48 + s5 * 2 ^ 32 + s6 * 2 ^ 16 + s7

/-- `Ipv6::node_multicast`: `ff01::1:ff00:0` plus the low 24 bits of the
address, computed with `+` on `u128`. -/
def node_multicast (addr : Nat) : Nat :=
  let node := segsToU128 0xFF01 0x0000 0x0000 0x0000 0x0000 0x0001 0xFF00 0x0000
  let mask := segsToU128 0x0000 0x0000 0x0000 0x0000 0x0000 0x0000 0x00FF 0xFFFF
  (node + (mask &&& addr)) % U128_MOD

/-- `Ipv6::link_multicast`: `ff02::1:ff00:0` plus the low 24 bits. -/
def link_multicast (addr : Nat) : Nat :=
  let link := segsToU128 0xFF02 0x0000 0x0000 0x0000 0x0000 0x0001 0xFF00 0x0000
  let mask := segsToU128 0x0000 0x0000 0x0000 0x0000 0x0000 0x0000 0x00FF 0xFFFF
  (link + (mask &&& addr)) % U128_MOD

/-- `Ipv6::site_multicast`: `ff05::1:ff00:0` plus the low 24 bits. -/
def site_multicast (addr : Nat) : Nat :=
  let site := segsToU128 0xFF05 0x0000 0x0000 0x0000 0x0000 0x0001 0xFF00 0x0000
  let mask := segsToU128 0x0000 0x0000 0x0000 0x0000 0x0000 0x0000 0x00FF 0xFFFF
  (site + (mask &&& addr)) % U128_MOD

/-- The shared core of `Ipv4::largest_identical_prefix` and
`Ipv6::max_identical_prefix`: scan from the most significant bit down,
counting positions where `a` and `b` agree, stopping at the first
difference.  `fuel` is the remaining iteration count of the source's
`for` loop, `mask` the current single-bit probe (halved each round). -/
def idPfxLoop (a b : Nat) : Nat → Nat → Nat → Nat
  | 0, _, count => count
  | fuel + 1, mask, count =>
    if a &&& mask = b &&& mask then idPfxLoop a b fuel (mask / 2) (count + 1)
    else count

/-- `Ipv4::largest_identical_prefix`: the probe mask is built by shifting
`1` left 31 times; the loop runs (at most) 32 times and the raw count is
returned. -/
def largestIdenticalPfx (a b : Nat) : Nat :=
  idPfxLoop a b 32 (shlLoop U32_MOD 1 31) 0

/-- `Ipv6::max_identical_prefix`: as the IPv4 variant at width 128, but
the source returns `count - 1` (u128 subtraction, which wraps to
`u128::MAX` when `count = 0` in release profile). -/
def maxIdenticalPfx (a b : Nat) : Nat :=
  (U128_MOD + idPfxLoop a b 128 (shlLoop U128_MOD 1 127) 0 - 1) % U128_MOD

/-- Specification-side definition (from the spec's words, for comparison
with the code): "the number of leading bits shared between `self` and
`other`, scanning from the most significant bit", on `W`-bit values. -/
def specLeadShared : Nat → Nat → Nat → Nat
  | 0, _, _ => 0
  | W + 1, a, b =>
    if a / 2 ^ W = b / 2 ^ W then specLeadShared W (a % 2 ^ W) (b % 2 ^ W) + 1
    else 0

/-- `str::split` on a single separator character (`&str` as `List Char`). -/
def splitOnChar (c : Char) : List Char → List (List Char)
  | [] => [[]]
  | x :: xs =>
    if x = c then [] :: splitOnChar c xs
    else
      match splitOnChar c xs with
      | [] => [[x]]
      | g :: gs => (x :: g) :: gs

/-- A nonempty all-decimal-digit string parsed as a natural number. -/
def parseDecDigits (s : List Char) : Option Nat :=
  if s.isEmpty then none
  else if s.all Char.isDigit then
    some (s.foldl (fun acc c => acc * 10 + (c.toNat - 48)) 0)
  else none

/-- Modelled from the spec: one octet of the platform textual IPv4 parser
(`std::net::Ipv4Addr::from_str`, an external collaborator — the spec says
construction "delegates to the platform's standard textual-address
parser" and fails on syntactically invalid text): decimal, `0..=255`, no
leading zeros. -/
def parseOctet (s : List Char) : Option Nat :=
  match parseDecDigits s with
  | none => none
  | some v =>
    if 255 < v then none
    else
      match s with
      | '0' :: _ :: _ => none
      | _ => some v

/-- Modelled from the spec: the platform textual IPv4 address parser,
dotted-quad form `a.b.c.d`. -/
def parseIpv4Addr (s : List Char) : Option Nat :=
  match (splitOnChar '.' s).map parseOctet with
  | [some o1, some o2, some o3, some o4] =>
    some (o1 * 2 ^ 24 + o2 * 2 ^ 16 + o3 * 2 ^ 8 + o4)
  | _ => none

/-- Modelled from the spec: the platform `u8` decimal parser
(`u8::from_str`) restricted to plain digit strings: value `0..=255`. -/
def parseDecU8 (s : List Char) : Option Nat :=
  match parseDecDigits s with
  | none => none
  | some v => if v ≤ 255 then some v else none

/-- Outcome of running a Rust function that may return `Ok`, return
`Err(InvalidInputError)`, or panic (`abort`). -/
inductive RunResult (α : Type) where
  | ok (val : α)
  | err
  | abort
deriving DecidableEq

/-- `Ipv4Pool::from(&str)`: requires a `/`, splits on it, and requires
exactly two fields; then parses the address and the prefix length with
`.parse().unwrap()` — a parse failure there is a panic (`abort`), not an
`Err`.  The prefix length is *not* range-checked: `IPV4_LEN -
prefix_length` is computed in `u8`, wrapping on underflow (release
profile; under debug assertions the underflow panics). -/
def ipv4PoolFrom (address : List Char) : RunResult Ipv4Pool :=
  if address.contains '/' then
    match splitOnChar '/' address with
    | [a1, a2] =>
      match parseIpv4Addr a1 with
      | none => RunResult.abort
      | some addr =>
        match parseDecU8 a2 with
        | none => RunResult.abort
        | some plen =>
          let d := (IPV4_LEN + 256 - plen) % 256
          let mask := shlLoop U32_MOD (U32_MOD - 1) d
          let stop := (2 ^ d) % U32_MOD
          RunResult.ok ⟨addr &&& mask, mask, INIT_NEXT_VALUE, stop⟩
    | _ => RunResult.err
  else RunResult.err

/-- Debug-profile checked subtraction: `a - b` panics (`none`) when it
would underflow the unsigned type. -/
def checkedSub (a b : Nat) : Option Nat :=
  if b ≤ a then some (a - b) else none

/-- Debug-profile checked `pow` on a `w`-bit unsigned type with modulus
`M = 2^w`: panics (`none`) when the true result does not fit. -/
def checkedPow (M b e : Nat) : Option Nat :=
  if b ^ e < M then some (b ^ e) else none

/-- `Ipv4::iter(prefix_length)` under debug assertions: no validation is
performed; the `u8` subtraction `IPV4_LEN - prefix_length` panics for
`prefix_length > 32`, and `u32::pow(2, 32 - prefix_length)` panics for
`prefix_length = 0`. -/
def ipv4IterDbg (addr plen : Nat) : Option Ipv4Pool :=
  match checkedSub IPV4_LEN plen with
  | none => none
  | some d =>
    match checkedPow U32_MOD 2 d with
    | none => none
    | some stop =>
      let mask := shlLoop U32_MOD (U32_MOD - 1) d
      some ⟨addr &&& mask, mask, INIT_NEXT_VALUE, stop⟩

/-- `Ipv6::iter(prefix_length)` under debug assertions. -/
def ipv6IterDbg (addr plen : Nat) : Option Ipv6Pool :=
  match checkedSub IPV6_LEN plen with
  | none => none
  | some d =>
    match checkedPow U128_MOD 2 d with
    | none => none
    | some stop =>
      let mask := shlLoop U128_MOD (U128_MOD - 1) d
      some ⟨addr &&& mask, mask, INIT_NEXT_VALUE, stop⟩

/-! ### Basic facts about the shift loop and the computed masks -/

theorem shlLoop_eq (M : Nat) (hM : 0 < M) :
    ∀ (k m : Nat), m < M → shlLoop M m k = (m * 2 ^ k) % M := by
  intro k
  induction k with
  | zero =>
    intro m hm
    simp [shlLoop, Nat.mod_eq_of_lt hm]
  | succ k ih =>
    intro m hm
    have h2 : (m * 2) % M < M := Nat.mod_lt _ hM
    calc shlLoop M m (k + 1) = shlLoop M ((m * 2) % M) k := rfl
      _ = ((m * 2) % M * 2 ^ k) % M := ih _ h2
      _ = (m * 2 * 2 ^ k) % M := Nat.mod_mul_mod
      _ = (m * 2 ^ (k + 1)) % M := by ring_nf

theorem sub_one_mul_pow_mod (w k : Nat) (hk : k ≤ w) :
    ((2 ^ w - 1) * 2 ^ k) % 2 ^ w = 2 ^ w - 2 ^ k := by
  have hx : (1 : Nat) ≤ 2 ^ k := Nat.one_le_two_pow
  have hxy : 2 ^ k ≤ 2 ^ w := Nat.pow_le_pow_right (by norm_num) hk
  obtain ⟨d, hd⟩ : ∃ d, 2 ^ w = 2 ^ k + d := ⟨2 ^ w - 2 ^ k, by omega⟩
  obtain ⟨x, hxe⟩ : ∃ x, 2 ^ k = x + 1 := ⟨2 ^ k - 1, by omega⟩
  have key : (2 ^ w - 1) * 2 ^ k = 2 ^ w * (2 ^ k - 1) + (2 ^ w - 2 ^ k) := by
    rw [hd, hxe]
    have e1 : x + 1 + d - 1 = x + d := by omega
    have e2 : x + 1 - 1 = x := by omega
    have e3 : x + 1 + d - (x + 1) = d := by omega
    rw [e1, e2, e3]
    ring
  rw [key, Nat.mul_add_mod]
  have hlt : 2 ^ w - 2 ^ k < 2 ^ w := by omega
  exact Nat.mod_eq_of_lt hlt

/-- The mask computed by the source's shift loop at width 32:
`k` left shifts of `u32::MAX` produce `2^32 - 2^k`. -/
theorem ipv4_mask_eq (k : Nat) (hk : k ≤ 32) :
    shlLoop U32_MOD (U32_MOD - 1) k = U32_MOD - 2 ^ k := by
  have h1 : U32_MOD - 1 < U32_MOD := by
    have : 0 < U32_MOD := by norm_num [U32_MOD]
    omega
  rw [shlLoop_eq U32_MOD (by norm_num [U32_MOD]) k _ h1]
  exact sub_one_mul_pow_mod 32 k hk

/-- The mask computed by the source's shift loop at width 128. -/
theorem ipv6_mask_eq (k : Nat) (hk : k ≤ 128) :
    shlLoop U128_MOD (U128_MOD - 1) k = U128_MOD - 2 ^ k := by
  have h1 : U128_MOD - 1 < U128_MOD := by
    have : 0 < U128_MOD := by norm_num [U128_MOD]
    omega
  rw [shlLoop_eq U128_MOD (by norm_num [U128_MOD]) k _ h1]
  exact sub_one_mul_pow_mod 128 k hk

/-! ### Characterizing pool construction and iteration -/

theorem ipv4PoolNew_eq (address plen : Nat) (h : plen ≤ 32) :
    ipv4PoolNew address plen =
      some ⟨address &&& (U32_MOD - 2 ^ (32 - plen)), U32_MOD - 2 ^ (32 - plen),
            1, (2 ^ (32 - plen)) % U32_MOD⟩ := by
  simp only [ipv4PoolNew, IPV4_LEN, INIT_NEXT_VALUE]
  rw [if_neg (by omega), ipv4_mask_eq (32 - plen) (by omega)]

theorem ipv6PoolNew_eq (address plen : Nat) (h : plen ≤ 128) :
    ipv6PoolNew address plen =
      some ⟨address &&& (U128_MOD - 2 ^ (128 - plen)), U128_MOD - 2 ^ (128 - plen),
            1, (2 ^ (128 - plen)) % U128_MOD⟩ := by
  simp only [ipv6PoolNew, IPV6_LEN, INIT_NEXT_VALUE]
  rw [if_neg (by omega), ipv6_mask_eq (128 - plen) (by omega)]

/-- In the wrap-free region the iterator emits the arithmetic progression
`prefix + next, prefix + next + 1, ..., prefix + stop - 1`. -/
theorem ipv4PoolTake_eq :
    ∀ (n : Nat) (p : Ipv4Pool), p.stop ≤ p.next + n → p.stop < U32_MOD →
      p.pfx + p.stop ≤ U32_MOD →
      ipv4PoolTake n p = List.range' (p.pfx + p.next) (p.stop - p.next) := by
  intro n
  induction n with
  | zero =>
    intro p h1 _ _
    have h0 : p.stop - p.next = 0 := by omega
    simp [ipv4PoolTake, h0, List.range']
  | succ n ih =>
    intro p h1 h2 h3
    by_cases hlt : p.next < p.stop
    · have hm1 : (p.pfx + p.next) % U32_MOD = p.pfx + p.next :=
        Nat.mod_eq_of_lt (by omega)
      have hm2 : (p.next + 1) % U32_MOD = p.next + 1 :=
        Nat.mod_eq_of_lt (by omega)
      have step : ipv4PoolNext p =
          some (p.pfx + p.next, ⟨p.pfx, p.mask, p.next + 1, p.stop⟩) := by
        simp [ipv4PoolNext, hlt, hm1, hm2]
      have tail := ih ⟨p.pfx, p.mask, p.next + 1, p.stop⟩ (by simp; omega)
        (by simpa using h2) (by simpa using h3)
      simp only at tail
      have hsn : p.stop - p.next = (p.stop - (p.next + 1)) + 1 := by omega
      have hadd : p.pfx + (p.next + 1) = (p.pfx + p.next) + 1 := by omega
      calc ipv4PoolTake (n + 1) p
          = (p.pfx + p.next) :: ipv4PoolTake n ⟨p.pfx, p.mask, p.next + 1, p.stop⟩ := by
            simp [ipv4PoolTake, step]
        _ = (p.pfx + p.next) :: List.range' (p.pfx + (p.next + 1)) (p.stop - (p.next + 1)) := by
            rw [tail]
        _ = List.range' (p.pfx + p.next) (p.stop - p.next) := by
            rw [hsn, hadd, List.range']
    · have h0 : p.stop - p.next = 0 := by omega
      simp [ipv4PoolTake, ipv4PoolNext, hlt, h0, List.range']

/-- C1 (counterexample): `Ipv4Pool::new(192.168.1.0, 24)` starts its cursor
at 1, so the first yielded address is `192.168.1.1`, not the network address
`192.168.1.0`, and the whole sequence has 255 elements, not 256. -/
theorem c1_counterexample :
    ipv4PoolNew 3232235776 24 = some ⟨3232235776, 4294967040, 1, 256⟩ ∧
    ipv4PoolNext ⟨3232235776, 4294967040, 1, 256⟩ =
      some (3232235777, ⟨3232235776, 4294967040, 2, 256⟩) ∧
    3232235777 ≠ 3232235776 ∧
    (ipv4PoolTake 256 ⟨3232235776, 4294967040, 1, 256⟩).length = 255 := by
  refine ⟨by decide, by decide, by decide, ?_⟩
  rw [ipv4PoolTake_eq 256 ⟨3232235776, 4294967040, 1, 256⟩ (by norm_num)
    (by norm_num [U32_MOD]) (by norm_num [U32_MOD])]
  simp [List.length_range']

/-- C1 (amended): for `prefix_length` in `[1, 32]` the pool yields exactly
`2^(32-prefix_length) - 1` addresses, strictly increasing with no gaps,
from `network + 1` up to `network + 2^(32-prefix_length) - 1`; for
`prefix_length = 0` the stop counter wraps to `0` (release profile) and
the pool yields no addresses at all. -/
theorem c1_amended :
    ∀ address plen, address < U32_MOD → plen ≤ 32 →
      ∃ P, ipv4PoolNew address plen = some P ∧
        P.pfx = address &&& (U32_MOD - 2 ^ (32 - plen)) ∧
        P.stop = (2 ^ (32 - plen)) % U32_MOD ∧
        (1 ≤ plen →
          ipv4PoolTake P.stop P = List.range' (P.pfx + 1) (2 ^ (32 - plen) - 1) ∧
          (ipv4PoolTake P.stop P).length = 2 ^ (32 - plen) - 1) ∧
        (plen = 0 → ∀ fuel, ipv4PoolTake fuel P = []) := by
  intro address plen _ hplen
  refine ⟨_, ipv4PoolNew_eq address plen hplen, rfl, rfl, ?_, ?_⟩
  · intro h1
    have hs : 2 ^ (32 - plen) ≤ 2 ^ 31 := Nat.pow_le_pow_right (by norm_num) (by omega)
    have hsM : 2 ^ (32 - plen) < U32_MOD := by
      have : (2 : Nat) ^ 31 < 2 ^ 32 := by norm_num
      simp only [U32_MOD]; omega
    have hmod : (2 ^ (32 - plen)) % U32_MOD = 2 ^ (32 - plen) := Nat.mod_eq_of_lt hsM
    have hland : address &&& (U32_MOD - 2 ^ (32 - plen)) ≤ U32_MOD - 2 ^ (32 - plen) :=
      Nat.and_le_right
    have h2M : 2 ^ (32 - plen) ≤ U32_MOD := le_of_lt hsM
    have key := ipv4PoolTake_eq ((2 ^ (32 - plen)) % U32_MOD)
      ⟨address &&& (U32_MOD - 2 ^ (32 - plen)), U32_MOD - 2 ^ (32 - plen),
        1, (2 ^ (32 - plen)) % U32_MOD⟩ (by simp [hmod]) (by simpa [hmod] using hsM)
      (by simp [hmod]; omega)
    simp only [hmod] at key ⊢
    rw [key]
    exact ⟨rfl, by simp [List.length_range']⟩
  · intro h0
    subst h0
    intro fuel
    cases fuel with
    | zero => rfl
    | succ n =>
      have hst : (4294967296 : Nat) % U32_MOD = 0 := by norm_num [U32_MOD]
      simp [ipv4PoolTake, ipv4PoolNext, hst]

/-- C1 (witness): the amended statement instantiated at `192.168.1.1/24`. -/
theorem c1_amended_witness :
    ∃ P, ipv4PoolNew 3232235777 24 = some P ∧
      P.pfx = 3232235777 &&& (U32_MOD - 2 ^ (32 - 24)) ∧
      P.stop = (2 ^ (32 - 24)) % U32_MOD ∧
      (1 ≤ 24 →
        ipv4PoolTake P.stop P = List.range' (P.pfx + 1) (2 ^ (32 - 24) - 1) ∧
        (ipv4PoolTake P.stop P).length = 2 ^ (32 - 24) - 1) ∧
      (24 = 0 → ∀ fuel, ipv4PoolTake fuel P = []) :=
  c1_amended 3232235777 24 (by norm_num [U32_MOD]) (by norm_num)

/-- C2 (counterexample): `Ipv4Pool::new(192.168.1.1, 32)` builds a pool with
`next = stop = 1`, whose iterator is exhausted immediately: it yields zero
addresses, not the single address `192.168.1.1`. -/
theorem c2_counterexample :
    ipv4PoolNew 3232235777 32 = some ⟨3232235777, 4294967295, 1, 1⟩ ∧
    ipv4PoolNext ⟨3232235777, 4294967295, 1, 1⟩ = none := by
  exact ⟨by decide, by decide⟩

/-- C2 (amended): `Pool::new(addr, WIDTH)` succeeds for both families, but
the resulting iterator yields no address at all (the cursor starts at 1
while `stop = 2^0 = 1`). -/
theorem c2_amended :
    (∀ address, address < U32_MOD →
      ∃ P, ipv4PoolNew address 32 = some P ∧ ipv4PoolNext P = none) ∧
    (∀ address, address < U128_MOD →
      ∃ P, ipv6PoolNew address 128 = some P ∧ ipv6PoolNext P = none) := by
  constructor
  · intro address _
    refine ⟨_, ipv4PoolNew_eq address 32 (by norm_num), ?_⟩
    simp [ipv4PoolNext, Nat.mod_eq_of_lt, U32_MOD]
  · intro address _
    refine ⟨_, ipv6PoolNew_eq address 128 (by norm_num), ?_⟩
    simp [ipv6PoolNext, Nat.mod_eq_of_lt, U128_MOD]

/-- C2 (witness): the amended statement instantiated at `192.168.1.1` and `::1`. -/
theorem c2_amended_witness :
    (∃ P, ipv4PoolNew 3232235777 32 = some P ∧ ipv4PoolNext P = none) ∧
    (∃ P, ipv6PoolNew 1 128 = some P ∧ ipv6PoolNext P = none) :=
  ⟨c2_amended.1 3232235777 (by norm_num [U32_MOD]),
   c2_amended.2 1 (by norm_num [U128_MOD])⟩

/-- C3 (code-bug evidence): `Ipv4Pool::new(192.168.1.1, 0)` computes
`stop = u32::pow(2, 32)` which wraps to `0` (release profile; under debug
assertions the `pow` panics), so `size()` returns `0` rather than
`4294967296` and the iterator yields nothing instead of all `2^32`
addresses. -/
theorem c3_code_eval :
    ipv4PoolNew 3232235777 0 = some ⟨0, 0, 1, 0⟩ ∧
    ipv4PoolSize ⟨0, 0, 1, 0⟩ = 0 ∧
    ipv4PoolNext ⟨0, 0, 1, 0⟩ = none := by
  refine ⟨by decide, by decide, by decide⟩

/-- C8 (confirmed): `CrossIpv4Pool::new` / `CrossIpv6Pool::new` fail exactly
when `start > end`, and on success set the `start`, `end` and cursor fields
to `start`, `end` and `start` respectively. -/
theorem c8_range_new :
    ∀ s e : Nat,
      (crossIpv4PoolNew s e = some ⟨s, e, s⟩ ↔ s ≤ e) ∧
      (crossIpv4PoolNew s e = none ↔ e < s) ∧
      (crossIpv6PoolNew s e = some ⟨s, e, s⟩ ↔ s ≤ e) ∧
      (crossIpv6PoolNew s e = none ↔ e < s) := by
  intro s e
  by_cases h : s ≤ e
  · simp only [crossIpv4PoolNew, crossIpv6PoolNew, if_pos h]
    refine ⟨by simp [h], by simp; omega, by simp [h], by simp; omega⟩
  · simp only [crossIpv4PoolNew, crossIpv6PoolNew, if_neg h]
    refine ⟨by simp; omega, by simp; omega, by simp; omega, by simp; omega⟩

theorem land_low24 (a : Nat) :
    segsToU128 0x0000 0x0000 0x0000 0x0000 0x0000 0x0000 0x00FF 0xFFFF &&& a =
      a % 2 ^ 24 := by
  have hmask : segsToU128 0x0000 0x0000 0x0000 0x0000 0x0000 0x0000 0x00FF 0xFFFF =
      2 ^ 24 - 1 := by norm_num [segsToU128]
  rw [hmask]
  show (2 ^ 24 - 1) &&& a = a % 2 ^ 24
  rw [Nat.and_comm]
  exact Nat.and_pow_two_sub_one_eq_mod a 24

/-- C7 (confirmed): the three solicited-node multicast derivations equal
`scope_prefix_base + (0x00FFFFFF & address)` with integer addition, the
bases being `ff01::1:ff00:0`, `ff02::1:ff00:0` and `ff05::1:ff00:0`. -/
theorem c7_multicast :
    ∀ a : Nat,
      node_multicast a = 0xFF0100000000000000000001FF000000 + a % 2 ^ 24 ∧
      link_multicast a = 0xFF0200000000000000000001FF000000 + a % 2 ^ 24 ∧
      site_multicast a = 0xFF0500000000000000000001FF000000 + a % 2 ^ 24 := by
  intro a
  have hlt : a % 2 ^ 24 < 2 ^ 24 := Nat.mod_lt _ (by norm_num)
  refine ⟨?_, ?_, ?_⟩ <;>
    · simp only [node_multicast, link_multicast, site_multicast, land_low24]
      rw [Nat.mod_eq_of_lt (by norm_num [segsToU128, U128_MOD]; omega)]
      norm_num [segsToU128]

/-! ### Block size and usable count -/

/-- C9 (counterexample): for the `/0` pool, `size()` computes `!mask + 1 =
u32::MAX + 1`, which wraps to `0` (release profile) instead of the claimed
`4294967296`. -/
theorem c9_counterexample :
    ipv4PoolNew 0 0 = some ⟨0, 0, 1, 0⟩ ∧
    ipv4PoolSize ⟨0, 0, 1, 0⟩ = 0 ∧ (0 : Nat) ≠ 4294967296 := by
  refine ⟨by decide, by decide, by decide⟩

/-- C9 (amended): `size()` returns `2^(32-p)` only for `p ∈ [1,32]` and
wraps to `0` at `p = 0`; `len()` returns `2^(32-p) - 2` only for
`p ∈ [0,31]` and wraps to `u32::MAX` at `p = 32`.  The IPv6 variants are
additionally truncated to 64 bits by the `as usize` cast. -/
theorem c9_amended :
    (∀ address plen, address < U32_MOD → plen ≤ 32 →
      ∀ P, ipv4PoolNew address plen = some P →
        (1 ≤ plen → ipv4PoolSize P = 2 ^ (32 - plen)) ∧
        (plen = 0 → ipv4PoolSize P = 0) ∧
        (plen ≤ 31 → ipv4PoolLen P = 2 ^ (32 - plen) - 2) ∧
        (plen = 32 → ipv4PoolLen P = U32_MOD - 1)) ∧
    (∀ address plen, address < U128_MOD → plen ≤ 128 →
      ∀ P, ipv6PoolNew address plen = some P →
        (1 ≤ plen → ipv6PoolSize P = (2 ^ (128 - plen)) % USIZE_MOD) ∧
        (plen = 0 → ipv6PoolSize P = 0) ∧
        (plen ≤ 127 → ipv6PoolLen P = (2 ^ (128 - plen) - 2) % USIZE_MOD) ∧
        (plen = 128 → ipv6PoolLen P = USIZE_MOD - 1)) := by
  constructor
  · intro address plen _ hplen P hP
    rw [ipv4PoolNew_eq address plen hplen] at hP
    injection hP with hP
    subst hP
    simp only [ipv4PoolSize, ipv4PoolLen, U32_MOD]
    have h1 : (1 : Nat) ≤ 2 ^ (32 - plen) := Nat.one_le_two_pow
    have h2 : 2 ^ (32 - plen) ≤ 2 ^ 32 := Nat.pow_le_pow_right (by norm_num) (by omega)
    refine ⟨?_, ?_, ?_, ?_⟩
    · intro hp
      have h3 : 2 ^ (32 - plen) ≤ 2 ^ 31 := Nat.pow_le_pow_right (by norm_num) (by omega)
      generalize 2 ^ (32 - plen) = t at *
      norm_num at h2 h3 ⊢
      omega
    · intro hp
      subst hp
      norm_num
    · intro hp
      have h3 : 2 ^ 1 ≤ 2 ^ (32 - plen) := Nat.pow_le_pow_right (by norm_num) (by omega)
      generalize 2 ^ (32 - plen) = t at *
      norm_num at h2 h3 ⊢
      omega
    · intro hp
      subst hp
      norm_num [U32_MOD]
  · intro address plen _ hplen P hP
    rw [ipv6PoolNew_eq address plen hplen] at hP
    injection hP with hP
    subst hP
    simp only [ipv6PoolSize, ipv6PoolLen, U128_MOD, USIZE_MOD]
    have h1 : (1 : Nat) ≤ 2 ^ (128 - plen) := Nat.one_le_two_pow
    have h2 : 2 ^ (128 - plen) ≤ 2 ^ 128 := Nat.pow_le_pow_right (by norm_num) (by omega)
    refine ⟨?_, ?_, ?_, ?_⟩
    · intro hp
      have h3 : 2 ^ (128 - plen) ≤ 2 ^ 127 := Nat.pow_le_pow_right (by norm_num) (by omega)
      generalize 2 ^ (128 - plen) = t at *
      norm_num at h2 h3 ⊢
      omega
    · intro hp
      subst hp
      norm_num
    · intro hp
      have h3 : 2 ^ 1 ≤ 2 ^ (128 - plen) := Nat.pow_le_pow_right (by norm_num) (by omega)
      generalize 2 ^ (128 - plen) = t at *
      norm_num at h2 h3 ⊢
      omega
    · intro hp
      subst hp
      norm_num [U128_MOD, USIZE_MOD]

/-- C9 (witness): amended statement instantiated at `192.168.1.0/24` and at
the IPv6 pool `::/120`. -/
theorem c9_amended_witness :
    ((1 ≤ 24 → ipv4PoolSize ⟨3232235776, 4294967040, 1, 256⟩ = 2 ^ (32 - 24)) ∧
     (24 = 0 → ipv4PoolSize ⟨3232235776, 4294967040, 1, 256⟩ = 0) ∧
     (24 ≤ 31 → ipv4PoolLen ⟨3232235776, 4294967040, 1, 256⟩ = 2 ^ (32 - 24) - 2) ∧
     (24 = 32 → ipv4PoolLen ⟨3232235776, 4294967040, 1, 256⟩ = U32_MOD - 1)) ∧
    ((1 ≤ 120 → ipv6PoolSize ⟨0, 340282366920938463463374607431768211200, 1, 256⟩ =
        (2 ^ (128 - 120)) % USIZE_MOD) ∧
     (120 = 0 → ipv6PoolSize ⟨0, 340282366920938463463374607431768211200, 1, 256⟩ = 0) ∧
     (120 ≤ 127 → ipv6PoolLen ⟨0, 340282366920938463463374607431768211200, 1, 256⟩ =
        (2 ^ (128 - 120) - 2) % USIZE_MOD) ∧
     (120 = 128 → ipv6PoolLen ⟨0, 340282366920938463463374607431768211200, 1, 256⟩ =
        USIZE_MOD - 1)) :=
  ⟨c9_amended.1 3232235776 24 (by norm_num [U32_MOD]) (by norm_num)
      ⟨3232235776, 4294967040, 1, 256⟩ (by decide),
   c9_amended.2 0 120 (by norm_num [U128_MOD]) (by norm_num)
      ⟨0, 340282366920938463463374607431768211200, 1, 256⟩ (by decide)⟩

/-! ### Termination of the iteration loops -/

theorem ipv4PoolSteps_exhaust :
    ∀ (n : Nat) (p : Ipv4Pool), p.stop ≤ p.next + n → p.stop < U32_MOD →
      ipv4PoolNext (ipv4PoolSteps n p) = none := by
  intro n
  induction n with
  | zero =>
    intro p h1 _
    have hnl : ¬ p.next < p.stop := by omega
    simp [ipv4PoolSteps, ipv4PoolNext, hnl]
  | succ n ih =>
    intro p h1 h2
    by_cases hlt : p.next < p.stop
    · have hm2 : (p.next + 1) % U32_MOD = p.next + 1 := Nat.mod_eq_of_lt (by omega)
      have step : ipv4PoolNext p =
          some ((p.pfx + p.next) % U32_MOD, ⟨p.pfx, p.mask, p.next + 1, p.stop⟩) := by
        simp [ipv4PoolNext, hlt, hm2]
      have hrw : ipv4PoolSteps (n + 1) p =
          ipv4PoolSteps n ⟨p.pfx, p.mask, p.next + 1, p.stop⟩ := by
        simp [ipv4PoolSteps, step]
      rw [hrw]
      exact ih _ (by simp; omega) (by simpa using h2)
    · have hrw : ipv4PoolSteps (n + 1) p = p := by
        simp [ipv4PoolSteps, ipv4PoolNext, hlt]
      rw [hrw]
      simp [ipv4PoolNext, hlt]

theorem ipv6PoolSteps_exhaust :
    ∀ (n : Nat) (p : Ipv6Pool), p.stop ≤ p.next + n → p.stop < U128_MOD →
      ipv6PoolNext (ipv6PoolSteps n p) = none := by
  intro n
  induction n with
  | zero =>
    intro p h1 _
    have hnl : ¬ p.next < p.stop := by omega
    simp [ipv6PoolSteps, ipv6PoolNext, hnl]
  | succ n ih =>
    intro p h1 h2
    by_cases hlt : p.next < p.stop
    · have hm2 : (p.next + 1) % U128_MOD = p.next + 1 := Nat.mod_eq_of_lt (by omega)
      have step : ipv6PoolNext p =
          some ((p.pfx + p.next) % U128_MOD, ⟨p.pfx, p.mask, p.next + 1, p.stop⟩) := by
        simp [ipv6PoolNext, hlt, hm2]
      have hrw : ipv6PoolSteps (n + 1) p =
          ipv6PoolSteps n ⟨p.pfx, p.mask, p.next + 1, p.stop⟩ := by
        simp [ipv6PoolSteps, step]
      rw [hrw]
      exact ih _ (by simp; omega) (by simpa using h2)
    · have hrw : ipv6PoolSteps (n + 1) p = p := by
        simp [ipv6PoolSteps, ipv6PoolNext, hlt]
      rw [hrw]
      simp [ipv6PoolNext, hlt]

theorem crossIpv4Steps_exhaust :
    ∀ (n : Nat) (p : CrossIpv4Pool), p.end_ + 1 ≤ p.next + n → p.end_ + 1 < U32_MOD →
      crossIpv4Next (crossIpv4Steps n p) = none := by
  intro n
  induction n with
  | zero =>
    intro p h1 _
    have hnl : ¬ p.next ≤ p.end_ := by omega
    simp [crossIpv4Steps, crossIpv4Next, hnl]
  | succ n ih =>
    intro p h1 h2
    by_cases hle : p.next ≤ p.end_
    · have hm2 : (p.next + 1) % U32_MOD = p.next + 1 := Nat.mod_eq_of_lt (by omega)
      have step : crossIpv4Next p =
          some (p.next, ⟨p.start, p.end_, p.next + 1⟩) := by
        simp [crossIpv4Next, hle, hm2]
      have hrw : crossIpv4Steps (n + 1) p =
          crossIpv4Steps n ⟨p.start, p.end_, p.next + 1⟩ := by
        simp [crossIpv4Steps, step]
      rw [hrw]
      exact ih _ (by simp; omega) (by simpa using h2)
    · have hrw : crossIpv4Steps (n + 1) p = p := by
        simp [crossIpv4Steps, crossIpv4Next, hle]
      rw [hrw]
      simp [crossIpv4Next, hle]

theorem crossIpv6Steps_exhaust :
    ∀ (n : Nat) (p : CrossIpv6Pool), p.end_ + 1 ≤ p.next + n → p.end_ + 1 < U128_MOD →
      crossIpv6Next (crossIpv6Steps n p) = none := by
  intro n
  induction n with
  | zero =>
    intro p h1 _
    have hnl : ¬ p.next ≤ p.end_ := by omega
    simp [crossIpv6Steps, crossIpv6Next, hnl]
  | succ n ih =>
    intro p h1 h2
    by_cases hle : p.next ≤ p.end_
    · have hm2 : (p.next + 1) % U128_MOD = p.next + 1 := Nat.mod_eq_of_lt (by omega)
      have step : crossIpv6Next p =
          some (p.next, ⟨p.start, p.end_, p.next + 1⟩) := by
        simp [crossIpv6Next, hle, hm2]
      have hrw : crossIpv6Steps (n + 1) p =
          crossIpv6Steps n ⟨p.start, p.end_, p.next + 1⟩ := by
        simp [crossIpv6Steps, step]
      rw [hrw]
      exact ih _ (by simp; omega) (by simpa using h2)
    · have hrw : crossIpv6Steps (n + 1) p = p := by
        simp [crossIpv6Steps, crossIpv6Next, hle]
      rw [hrw]
      simp [crossIpv6Next, hle]

/-- When the range end is the maximal `u32`, the cursor can never exceed it:
the release-profile increment wraps and the iterator never exhausts. -/
theorem crossIpv4_max_never_exhausts :
    ∀ (n : Nat) (p : CrossIpv4Pool), p.end_ = U32_MOD - 1 → p.next < U32_MOD →
      crossIpv4Next (crossIpv4Steps n p) ≠ none := by
  intro n
  induction n with
  | zero =>
    intro p h1 h2
    have hle : p.next ≤ p.end_ := by omega
    simp [crossIpv4Steps, crossIpv4Next, hle]
  | succ n ih =>
    intro p h1 h2
    have hle : p.next ≤ p.end_ := by omega
    have step : crossIpv4Next p =
        some (p.next, ⟨p.start, p.end_, (p.next + 1) % U32_MOD⟩) := by
      simp [crossIpv4Next, hle]
    have hrw : crossIpv4Steps (n + 1) p =
        crossIpv4Steps n ⟨p.start, p.end_, (p.next + 1) % U32_MOD⟩ := by
      simp [crossIpv4Steps, step]
    rw [hrw]
    exact ih _ (by simpa using h1)
      (by simp; exact Nat.mod_lt _ (by norm_num [U32_MOD]))

/-- C5 (counterexample): the range `255.255.255.255-255.255.255.255`
(constructed by `CrossIpv4Pool::new`, whose end is the maximum address)
never reaches the exhausted state: after yielding `u32::MAX` the cursor
wraps to `0` and `next <= end` holds forever (release profile; under debug
assertions the increment panics instead). -/
theorem c5_counterexample :
    crossIpv4PoolNew 4294967295 4294967295 =
      some ⟨4294967295, 4294967295, 4294967295⟩ ∧
    ¬ ∃ n, crossIpv4Next
        (crossIpv4Steps n ⟨4294967295, 4294967295, 4294967295⟩) = none := by
  refine ⟨by decide, ?_⟩
  rintro ⟨n, hn⟩
  exact crossIpv4_max_never_exhausts n ⟨4294967295, 4294967295, 4294967295⟩
    (by norm_num [U32_MOD]) (by norm_num [U32_MOD]) hn

/-- C5 (amended): every CIDR pool iterator exhausts within `stop` calls;
every cross-range iterator whose `end` is below the maximum address
exhausts within `end - start + 1` calls.  (Only a cross-range whose end is
the top of the address space fails to terminate.) -/
theorem c5_amended :
    (∀ s e P, crossIpv4PoolNew s e = some P → P.end_ + 1 < U32_MOD →
      crossIpv4Next (crossIpv4Steps (P.end_ + 1 - P.start) P) = none) ∧
    (∀ s e P, crossIpv6PoolNew s e = some P → P.end_ + 1 < U128_MOD →
      crossIpv6Next (crossIpv6Steps (P.end_ + 1 - P.start) P) = none) ∧
    (∀ address plen P, ipv4PoolNew address plen = some P →
      ipv4PoolNext (ipv4PoolSteps P.stop P) = none) ∧
    (∀ address plen P, ipv6PoolNew address plen = some P →
      ipv6PoolNext (ipv6PoolSteps P.stop P) = none) := by
  refine ⟨?_, ?_, ?_, ?_⟩
  · intro s e P hP hend
    simp only [crossIpv4PoolNew] at hP
    by_cases h : s ≤ e
    · rw [if_pos h] at hP
      injection hP with hP
      subst hP
      exact crossIpv4Steps_exhaust _ _ (by simp; omega) (by simpa using hend)
    · rw [if_neg h] at hP
      exact absurd hP (by simp)
  · intro s e P hP hend
    simp only [crossIpv6PoolNew] at hP
    by_cases h : s ≤ e
    · rw [if_pos h] at hP
      injection hP with hP
      subst hP
      exact crossIpv6Steps_exhaust _ _ (by simp; omega) (by simpa using hend)
    · rw [if_neg h] at hP
      exact absurd hP (by simp)
  · intro address plen P hP
    by_cases h : plen ≤ 32
    · rw [ipv4PoolNew_eq address plen h] at hP
      injection hP with hP
      subst hP
      refine ipv4PoolSteps_exhaust _ _ (by simp) ?_
      simp only
      exact Nat.mod_lt _ (by norm_num [U32_MOD])
    · simp only [ipv4PoolNew, if_pos (by omega : 32 < plen)] at hP
      exact absurd hP (by simp)
  · intro address plen P hP
    by_cases h : plen ≤ 128
    · rw [ipv6PoolNew_eq address plen h] at hP
      injection hP with hP
      subst hP
      refine ipv6PoolSteps_exhaust _ _ (by simp) ?_
      simp only
      exact Nat.mod_lt _ (by norm_num [U128_MOD])
    · simp only [ipv6PoolNew, if_pos (by omega : 128 < plen)] at hP
      exact absurd hP (by simp)

/-- C5 (witness): amended statement instantiated at the one-element range
`0.0.0.0-0.0.0.0` (both families) and the one-element pools `/32`, `/128`. -/
theorem c5_amended_witness :
    crossIpv4Next (crossIpv4Steps 1 ⟨0, 0, 0⟩) = none ∧
    crossIpv6Next (crossIpv6Steps 1 ⟨0, 0, 0⟩) = none ∧
    ipv4PoolNext (ipv4PoolSteps 1 ⟨0, 4294967295, 1, 1⟩) = none ∧
    ipv6PoolNext (ipv6PoolSteps 1
      ⟨0, 340282366920938463463374607431768211455, 1, 1⟩) = none :=
  ⟨c5_amended.1 0 0 ⟨0, 0, 0⟩ (by decide) (by norm_num [U32_MOD]),
   c5_amended.2.1 0 0 ⟨0, 0, 0⟩ (by decide) (by norm_num [U128_MOD]),
   c5_amended.2.2.1 0 32 ⟨0, 4294967295, 1, 1⟩ (by decide),
   c5_amended.2.2.2 0 128 ⟨0, 340282366920938463463374607431768211455, 1, 1⟩
     (by decide)⟩

/-! ### The common-prefix computation -/

theorem idPfxLoop_zero (a b mask count : Nat) : idPfxLoop a b 0 mask count = count := rfl

theorem idPfxLoop_succ (a b fuel mask count : Nat) :
    idPfxLoop a b (fuel + 1) mask count =
      if a &&& mask = b &&& mask then idPfxLoop a b fuel (mask / 2) (count + 1)
      else count := rfl

theorem specLeadShared_zero (a b : Nat) : specLeadShared 0 a b = 0 := rfl

theorem specLeadShared_succ (W a b : Nat) :
    specLeadShared (W + 1) a b =
      if a / 2 ^ W = b / 2 ^ W then specLeadShared W (a % 2 ^ W) (b % 2 ^ W) + 1
      else 0 := rfl

/-- Probing bit `W` with a single-bit mask agrees on `a` and `b` iff their
bits at position `W` agree. -/
theorem land_bit_iff (a b W : Nat) :
    (a &&& 2 ^ W = b &&& 2 ^ W) ↔ a / 2 ^ W % 2 = b / 2 ^ W % 2 := by
  rw [Nat.and_two_pow, Nat.and_two_pow]
  constructor
  · intro h
    have h2 : (a.testBit W).toNat = (b.testBit W).toNat :=
      Nat.eq_of_mul_eq_mul_right (Nat.two_pow_pos W) h
    have h3 : a.testBit W = b.testBit W := by
      cases ha : a.testBit W <;> cases hb : b.testBit W <;>
        simp_all
    have h4 := h3
    rw [Nat.testBit_to_div_mod, Nat.testBit_to_div_mod] at h4
    by_cases hA : a / 2 ^ W % 2 = 1 <;> by_cases hB : b / 2 ^ W % 2 = 1
    · rw [hA, hB]
    · simp [hA, hB] at h4
    · simp [hA, hB] at h4
    · have hma : a / 2 ^ W % 2 < 2 := Nat.mod_lt _ (by norm_num)
      have hmb : b / 2 ^ W % 2 < 2 := Nat.mod_lt _ (by norm_num)
      omega
  · intro h
    have h3 : a.testBit W = b.testBit W := by
      rw [Nat.testBit_to_div_mod, Nat.testBit_to_div_mod, h]
    rw [h3]

/-- The source's most-significant-bit-first scan computes exactly the
spec's leading-shared-bit count (of the low `W + 1` bits). -/
theorem idPfxLoop_eq (a b : Nat) :
    ∀ W count,
      idPfxLoop a b (W + 1) (2 ^ W) count =
        count + specLeadShared (W + 1) (a % 2 ^ (W + 1)) (b % 2 ^ (W + 1)) := by
  intro W
  induction W with
  | zero =>
    intro count
    rw [idPfxLoop_succ, specLeadShared_succ]
    simp only [Nat.zero_add, pow_zero, pow_one, Nat.div_one, idPfxLoop_zero,
      specLeadShared_zero]
    rw [Nat.and_one_is_mod, Nat.and_one_is_mod]
    by_cases h : a % 2 = b % 2
    · rw [if_pos h, if_pos h]
    · rw [if_neg h, if_neg h, Nat.add_zero]
  | succ W ih =>
    intro count
    rw [idPfxLoop_succ, specLeadShared_succ]
    have hdiv : 2 ^ (W + 1) / 2 = 2 ^ W := by
      rw [pow_succ]
      exact Nat.mul_div_cancel _ (by norm_num)
    have hda : a % 2 ^ (W + 1 + 1) / 2 ^ (W + 1) = a / 2 ^ (W + 1) % 2 := by
      rw [pow_succ]
      exact Nat.mod_mul_right_div_self a (2 ^ (W + 1)) 2
    have hdb : b % 2 ^ (W + 1 + 1) / 2 ^ (W + 1) = b / 2 ^ (W + 1) % 2 := by
      rw [pow_succ]
      exact Nat.mod_mul_right_div_self b (2 ^ (W + 1)) 2
    have hma : a % 2 ^ (W + 1 + 1) % 2 ^ (W + 1) = a % 2 ^ (W + 1) :=
      Nat.mod_mod_of_dvd a (pow_dvd_pow 2 (by omega))
    have hmb : b % 2 ^ (W + 1 + 1) % 2 ^ (W + 1) = b % 2 ^ (W + 1) :=
      Nat.mod_mod_of_dvd b (pow_dvd_pow 2 (by omega))
    rw [hdiv, hda, hdb, hma, hmb]
    have hcond := land_bit_iff a b (W + 1)
    by_cases h : a / 2 ^ (W + 1) % 2 = b / 2 ^ (W + 1) % 2
    · rw [if_pos (hcond.mpr h), if_pos h, ih (count + 1)]
      omega
    · rw [if_neg (fun hc => h (hcond.mp hc)), if_neg h, Nat.add_zero]

theorem specLeadShared_le : ∀ (W a b : Nat), specLeadShared W a b ≤ W := by
  intro W
  induction W with
  | zero => intro a b; rw [specLeadShared_zero]
  | succ W ih =>
    intro a b
    rw [specLeadShared_succ]
    by_cases h : a / 2 ^ W = b / 2 ^ W
    · rw [if_pos h]
      have := ih (a % 2 ^ W) (b % 2 ^ W)
      omega
    · rw [if_neg h]
      omega

theorem specLeadShared_self : ∀ (W a : Nat), specLeadShared W a a = W := by
  intro W
  induction W with
  | zero => intro a; rfl
  | succ W ih =>
    intro a
    rw [specLeadShared_succ, if_pos rfl, ih]

theorem specLeadShared_eq_width_iff :
    ∀ (W a b : Nat), a < 2 ^ W → b < 2 ^ W → (specLeadShared W a b = W ↔ a = b) := by
  intro W
  induction W with
  | zero =>
    intro a b ha hb
    simp only [pow_zero, Nat.lt_one_iff] at ha hb
    subst ha
    subst hb
    simp [specLeadShared_zero]
  | succ W ih =>
    intro a b ha hb
    rw [specLeadShared_succ]
    have hma : a % 2 ^ W < 2 ^ W := Nat.mod_lt _ (Nat.two_pow_pos W)
    have hmb : b % 2 ^ W < 2 ^ W := Nat.mod_lt _ (Nat.two_pow_pos W)
    by_cases h : a / 2 ^ W = b / 2 ^ W
    · rw [if_pos h]
      have hiff := ih (a % 2 ^ W) (b % 2 ^ W) hma hmb
      constructor
      · intro hs
        have hmod : a % 2 ^ W = b % 2 ^ W := hiff.mp (by omega)
        have hda := Nat.div_add_mod a (2 ^ W)
        have hdb := Nat.div_add_mod b (2 ^ W)
        rw [← hda, ← hdb, h, hmod]
      · intro hab
        subst hab
        rw [specLeadShared_self]
    · rw [if_neg h]
      constructor
      · intro h0
        omega
      · intro hab
        exact absurd (by rw [hab]) h

/-- `Ipv4::largest_identical_prefix` returns exactly the spec's count. -/
theorem largestIdenticalPfx_spec (a b : Nat) (ha : a < 2 ^ 32) (hb : b < 2 ^ 32) :
    largestIdenticalPfx a b = specLeadShared 32 a b := by
  have hm : shlLoop U32_MOD 1 31 = 2 ^ 31 := by
    rw [shlLoop_eq U32_MOD (by norm_num [U32_MOD]) 31 1 (by norm_num [U32_MOD]), one_mul]
    exact Nat.mod_eq_of_lt (by norm_num [U32_MOD])
  have h := idPfxLoop_eq a b 31 0
  rw [Nat.mod_eq_of_lt (show a < 2 ^ (31 + 1) from ha),
    Nat.mod_eq_of_lt (show b < 2 ^ (31 + 1) from hb), Nat.zero_add] at h
  have h2 : idPfxLoop a b 32 (2 ^ 31) 0 = specLeadShared 32 a b := h
  simp only [largestIdenticalPfx, hm, h2]

/-- `Ipv6::max_identical_prefix` returns the spec's count minus one, with
u128 wrapping subtraction. -/
theorem maxIdenticalPfx_spec (c d : Nat) (hc : c < 2 ^ 128) (hd : d < 2 ^ 128) :
    maxIdenticalPfx c d = (2 ^ 128 + specLeadShared 128 c d - 1) % 2 ^ 128 := by
  have hm : shlLoop U128_MOD 1 127 = 2 ^ 127 := by
    rw [shlLoop_eq U128_MOD (by norm_num [U128_MOD]) 127 1 (by norm_num [U128_MOD]), one_mul]
    exact Nat.mod_eq_of_lt (by norm_num [U128_MOD])
  have h := idPfxLoop_eq c d 127 0
  rw [Nat.mod_eq_of_lt (show c < 2 ^ (127 + 1) from hc),
    Nat.mod_eq_of_lt (show d < 2 ^ (127 + 1) from hd), Nat.zero_add] at h
  have h2 : idPfxLoop c d 128 (2 ^ 127) 0 = specLeadShared 128 c d := h
  simp only [maxIdenticalPfx, hm, h2]
  rfl

/-- C6 (counterexample): on two equal IPv6 addresses
`max_identical_prefix` returns `count - 1 = 127`, not `WIDTH = 128` as
the claim requires. -/
theorem c6_counterexample :
    maxIdenticalPfx 1 1 = 127 ∧ (127 : Nat) ≠ 128 := by
  have h1 := maxIdenticalPfx_spec 1 1 (by norm_num) (by norm_num)
  rw [specLeadShared_self] at h1
  rw [h1]
  norm_num

set_option maxRecDepth 8192 in
/-- C6 (amended): `Ipv4::largest_identical_prefix` returns the number of
leading shared bits exactly as claimed (`32` iff equal, `0` if the top
bits differ, `25` on the concrete pair), but
`Ipv6::max_identical_prefix` returns that count *minus one* with u128
wrapping subtraction: `127` on equal addresses and `2^128 - 1` (release
profile; debug assertions panic) when the top bits differ. -/
theorem c6_amended :
    ∀ a b c d : Nat, a < 2 ^ 32 → b < 2 ^ 32 → c < 2 ^ 128 → d < 2 ^ 128 →
      largestIdenticalPfx a b = specLeadShared 32 a b ∧
      (largestIdenticalPfx a b = 32 ↔ a = b) ∧
      (a / 2 ^ 31 ≠ b / 2 ^ 31 → largestIdenticalPfx a b = 0) ∧
      largestIdenticalPfx 3232235912 3232235968 = 25 ∧
      maxIdenticalPfx c d = (2 ^ 128 + specLeadShared 128 c d - 1) % 2 ^ 128 ∧
      (c = d → maxIdenticalPfx c d = 127) ∧
      (c / 2 ^ 127 ≠ d / 2 ^ 127 → maxIdenticalPfx c d = 2 ^ 128 - 1) := by
  intro a b c d ha hb hc hd
  have hs32 : specLeadShared 32 a b =
      if a / 2 ^ 31 = b / 2 ^ 31 then specLeadShared 31 (a % 2 ^ 31) (b % 2 ^ 31) + 1
      else 0 := rfl
  have hs128 : specLeadShared 128 c d =
      if c / 2 ^ 127 = d / 2 ^ 127 then specLeadShared 127 (c % 2 ^ 127) (d % 2 ^ 127) + 1
      else 0 := rfl
  refine ⟨largestIdenticalPfx_spec a b ha hb, ?_, ?_, by decide,
    maxIdenticalPfx_spec c d hc hd, ?_, ?_⟩
  · rw [largestIdenticalPfx_spec a b ha hb]
    exact specLeadShared_eq_width_iff 32 a b ha hb
  · intro hne
    rw [largestIdenticalPfx_spec a b ha hb, hs32, if_neg hne]
  · intro hcd
    subst hcd
    rw [maxIdenticalPfx_spec c c hc hc, specLeadShared_self]
    norm_num
  · intro hne
    rw [maxIdenticalPfx_spec c d hc hd, hs128, if_neg hne]
    norm_num

/-- C6 (witness): amended statement instantiated at the concrete IPv4
pair `192.168.1.136` / `192.168.1.192` and the IPv6 pair `::` / `::`. -/
theorem c6_amended_witness :
    largestIdenticalPfx 3232235912 3232235968 = specLeadShared 32 3232235912 3232235968 ∧
    (largestIdenticalPfx 3232235912 3232235968 = 32 ↔ 3232235912 = 3232235968) ∧
    ((3232235912 : Nat) / 2 ^ 31 ≠ (3232235968 : Nat) / 2 ^ 31 →
      largestIdenticalPfx 3232235912 3232235968 = 0) ∧
    largestIdenticalPfx 3232235912 3232235968 = 25 ∧
    maxIdenticalPfx 0 0 = (2 ^ 128 + specLeadShared 128 0 0 - 1) % 2 ^ 128 ∧
    ((0 : Nat) = 0 → maxIdenticalPfx 0 0 = 127) ∧
    ((0 : Nat) / 2 ^ 127 ≠ (0 : Nat) / 2 ^ 127 → maxIdenticalPfx 0 0 = 2 ^ 128 - 1) :=
  c6_amended 3232235912 3232235968 0 0 (by norm_num) (by norm_num)
    (by norm_num) (by norm_num)

/-! ### Textual construction and the unchecked iter constructor -/

set_option maxRecDepth 8192 in
/-- C4 (code-bug evidence): `Ipv4Pool::from("abc/24")` panics — the address
parse result is `.unwrap()`ed — instead of returning a parse-failure
error; and `Ipv4Pool::from("1.2.3.4/33")` performs no prefix-range check
at all: in release profile the `u8` subtraction `32 - 33` wraps to `255`
and the call returns `Ok` with a degenerate pool (mask `0`, stop `0`)
instead of an error (under debug assertions it panics on the underflow). -/
theorem c4_code_eval :
    ipv4PoolFrom ['a', 'b', 'c', '/', '2', '4'] = RunResult.abort ∧
    ipv4PoolFrom ['1', '.', '2', '.', '3', '.', '4', '/', '3', '3'] =
      RunResult.ok ⟨0, 0, 1, 0⟩ := by
  exact ⟨by decide, by decide⟩

theorem ipv4IterDbg_eq (addr plen : Nat) (h1 : 1 ≤ plen) (h2 : plen ≤ 32) :
    ipv4IterDbg addr plen =
      some ⟨addr &&& shlLoop U32_MOD (U32_MOD - 1) (32 - plen),
            shlLoop U32_MOD (U32_MOD - 1) (32 - plen), 1, 2 ^ (32 - plen)⟩ := by
  have hlt : 2 ^ (32 - plen) < U32_MOD := by
    have := Nat.pow_lt_pow_of_lt (a := 2) (by norm_num) (show 32 - plen < 32 by omega)
    simpa [U32_MOD] using this
  have hd : checkedSub IPV4_LEN plen = some (32 - plen) := by
    simp only [checkedSub, IPV4_LEN]
    rw [if_pos h2]
  have hpow : checkedPow U32_MOD 2 (32 - plen) = some (2 ^ (32 - plen)) := by
    simp only [checkedPow]
    rw [if_pos hlt]
  simp only [ipv4IterDbg, hd, hpow, INIT_NEXT_VALUE]

theorem ipv6IterDbg_eq (addr plen : Nat) (h1 : 1 ≤ plen) (h2 : plen ≤ 128) :
    ipv6IterDbg addr plen =
      some ⟨addr &&& shlLoop U128_MOD (U128_MOD - 1) (128 - plen),
            shlLoop U128_MOD (U128_MOD - 1) (128 - plen), 1, 2 ^ (128 - plen)⟩ := by
  have hlt : 2 ^ (128 - plen) < U128_MOD := by
    have := Nat.pow_lt_pow_of_lt (a := 2) (by norm_num) (show 128 - plen < 128 by omega)
    simpa [U128_MOD] using this
  have hd : checkedSub IPV6_LEN plen = some (128 - plen) := by
    simp only [checkedSub, IPV6_LEN]
    rw [if_pos h2]
  have hpow : checkedPow U128_MOD 2 (128 - plen) = some (2 ^ (128 - plen)) := by
    simp only [checkedPow]
    rw [if_pos hlt]
  simp only [ipv6IterDbg, hd, hpow, INIT_NEXT_VALUE]

/-- C10 (counterexample): under debug assertions `Ipv4::iter(addr, 0)`
panics as well — `u32::pow(2, 32)` overflows — even though `0 ≤ 32`, so
the panic-free branch is *not* reachable exactly under
`prefix_length ≤ WIDTH`. -/
theorem c10_counterexample :
    ipv4IterDbg 0 0 = none ∧ (0 : Nat) ≤ 32 := by
  exact ⟨by decide, by decide⟩

/-- C10 (amended): `iter` performs no prefix-length validation; the `u8`
subtraction `WIDTH - prefix_length` underflows (a debug-assertions panic)
exactly when `prefix_length > WIDTH`; the whole call is panic-free under
debug assertions exactly for `1 ≤ prefix_length ≤ WIDTH` — at
`prefix_length = 0` the `pow(2, WIDTH)` additionally overflows — and on
that domain `iter` builds the same pool as `Pool::new`. -/
theorem c10_amended :
    ∀ addr plen : Nat,
      (checkedSub IPV4_LEN plen = none ↔ 32 < plen) ∧
      ((ipv4IterDbg addr plen).isSome = true ↔ 1 ≤ plen ∧ plen ≤ 32) ∧
      (1 ≤ plen → plen ≤ 32 → ipv4IterDbg addr plen = ipv4PoolNew addr plen) ∧
      (checkedSub IPV6_LEN plen = none ↔ 128 < plen) ∧
      ((ipv6IterDbg addr plen).isSome = true ↔ 1 ≤ plen ∧ plen ≤ 128) ∧
      (1 ≤ plen → plen ≤ 128 → ipv6IterDbg addr plen = ipv6PoolNew addr plen) := by
  intro addr plen
  refine ⟨?_, ?_, ?_, ?_, ?_, ?_⟩
  · by_cases h : plen ≤ 32
    · simp [checkedSub, IPV4_LEN, h]
    · simp [checkedSub, IPV4_LEN, h]
      omega
  · by_cases h2 : plen ≤ 32
    · by_cases h1 : 1 ≤ plen
      · rw [ipv4IterDbg_eq addr plen h1 h2]
        simp [h1, h2]
      · have h0 : plen = 0 := by omega
        subst h0
        simp [ipv4IterDbg, checkedSub, checkedPow, IPV4_LEN, U32_MOD]
    · have hd : checkedSub IPV4_LEN plen = none := by
        simp only [checkedSub, IPV4_LEN]
        rw [if_neg h2]
      simp [ipv4IterDbg, hd, h2]
  · intro h1 h2
    rw [ipv4IterDbg_eq addr plen h1 h2]
    have hlt : 2 ^ (32 - plen) < U32_MOD := by
      have := Nat.pow_lt_pow_of_lt (a := 2) (by norm_num) (show 32 - plen < 32 by omega)
      simpa [U32_MOD] using this
    simp only [ipv4PoolNew, IPV4_LEN, INIT_NEXT_VALUE]
    rw [if_neg (by omega), Nat.mod_eq_of_lt hlt]
  · by_cases h : plen ≤ 128
    · simp [checkedSub, IPV6_LEN, h]
    · simp [checkedSub, IPV6_LEN, h]
      omega
  · by_cases h2 : plen ≤ 128
    · by_cases h1 : 1 ≤ plen
      · rw [ipv6IterDbg_eq addr plen h1 h2]
        simp [h1, h2]
      · have h0 : plen = 0 := by omega
        subst h0
        simp [ipv6IterDbg, checkedSub, checkedPow, IPV6_LEN, U128_MOD]
    · have hd : checkedSub IPV6_LEN plen = none := by
        simp only [checkedSub, IPV6_LEN]
        rw [if_neg h2]
      simp [ipv6IterDbg, hd, h2]
  · intro h1 h2
    rw [ipv6IterDbg_eq addr plen h1 h2]
    have hlt : 2 ^ (128 - plen) < U128_MOD := by
      have := Nat.pow_lt_pow_of_lt (a := 2) (by norm_num) (show 128 - plen < 128 by omega)
      simpa [U128_MOD] using this
    simp only [ipv6PoolNew, IPV6_LEN, INIT_NEXT_VALUE]
    rw [if_neg (by omega), Nat.mod_eq_of_lt hlt]

/-- C10 (witness): amended statement instantiated at address `0`,
prefix length `24`. -/
theorem c10_amended_witness :
    (checkedSub IPV4_LEN 24 = none ↔ 32 < 24) ∧
    ((ipv4IterDbg 0 24).isSome = true ↔ 1 ≤ 24 ∧ 24 ≤ 32) ∧
    (1 ≤ 24 → 24 ≤ 32 → ipv4IterDbg 0 24 = ipv4PoolNew 0 24) ∧
    (checkedSub IPV6_LEN 24 = none ↔ 128 < 24) ∧
    ((ipv6IterDbg 0 24).isSome = true ↔ 1 ≤ 24 ∧ 24 ≤ 128) ∧
    (1 ≤ 24 → 24 ≤ 128 → ipv6IterDbg 0 24 = ipv6PoolNew 0 24) :=
  c10_amended 0 24

end Subnetwork
